import Mathlib

set_option linter.unusedVariables false

/-!
Shallow embedding of the pebbe/dbxml Go bindings for Oracle Berkeley DB XML.

The repository has two layers:

* `src/c_dbxml.cc` — a C shim over the native engine.  Each connection handle
  (`struct c_dbxml_t`) carries a sticky error flag and error string; each
  cursor handle (`struct c_dbxml_docs_t`) carries the result stream, the
  current document and lazily cached name/content.
* `src/dbxml.go` — the Go layer: `Db` (opened flag, native handle, mutex,
  monotonic id counter `next`, registry `docss` of live iterators) and `Docs`
  (back reference `db`, registration `id`, `started`/`opened` flags, native
  cursor).

The native engine itself (document storage, XPath evaluation, file system) is
an external collaborator; it is abstracted by an `Engine` oracle below, and the
container's documented behaviour (a name-keyed document store whose delete
throws when the name is absent and whose put throws when the name exists or the
content is not well formed) is given by `containerDelete` / `containerPut`.
All Go/C control flow, state updates and error propagation are translated
directly from the source.  Go pointers to `Docs` objects are modelled by
addresses (indices) into a `heap` list carried alongside the `Db` state, so
that aliasing between the registry `docss` (which stores pointers) and
user-held iterators is exact.
-/

/-- Oracle for the external native engine and operating system: which outcomes
the out-of-scope collaborator produces.  `openRWFails` / `openROFails` give the
exception message (if any) thrown by the read-write resp. read-only open
attempt; `aliasOk` is the result of `container.addAlias`; `files` gives the
contents of a disk file (`none` = unreadable); `wellFormed` says whether a
document body parses as XML; `queryOk`/`queryRes` give query construction
success and the lazily produced results; `mergeSource` enumerates the
documents of a second container opened for `Merge`. -/
structure Engine where
  existsCont : Bool
  diskDocs : List (String × String)
  openRWFails : Option String
  openROFails : Option String
  aliasOk : Bool
  files : String → Option String
  wellFormed : String → Bool
  queryOk : String → Bool
  queryRes : String → List (String × String)
  mergeSource : String → List (String × String)

/-- The C shim's connection handle `struct c_dbxml_t`: the container contents
plus the sticky error flag, error string, and the `result` buffer used by
`c_dbxml_get`. -/
structure c_dbxml_t where
  container : List (String × String)
  error : Bool
  errstring : String
  result : String
deriving Inhabited, DecidableEq

/-- The C shim's cursor handle `struct c_dbxml_docs_t`: remaining result
stream `it`, current document `doc`, `more` flag, and the lazily cached
`name`/`content` strings. -/
structure c_dbxml_docs_t where
  it : List (String × String)
  doc : String × String
  more : Bool
  name : String
  content : String
deriving Inhabited, DecidableEq

/-- Look a document up by name in a container (the engine's name-keyed
store). -/
def findDoc (c : List (String × String)) (name : String) : Option String :=
  (c.find? (fun p => p.1 == name)).map Prod.snd

/-- The engine's `container.deleteDocument`: removes the named document, or
throws (`Except.error`) when no document of that name exists. -/
def containerDelete (c : List (String × String)) (name : String) :
    Except String (List (String × String)) :=
  if (findDoc c name).isSome then .ok (c.filter (fun p => p.1 != name))
  else .error ("Document not found: " ++ name)

/-- The engine's `container.putDocument`: inserts the document, or throws when
the name already exists or the content is not well-formed XML (per the
`wf` oracle). -/
def containerPut (wf : String → Bool) (c : List (String × String))
    (name data : String) : Except String (List (String × String)) :=
  if (findDoc c name).isSome then .error ("Document exists: " ++ name)
  else if wf data then .ok (c ++ [(name, data)])
  else .error ("Malformed document: " ++ name)

/-- The container after the best-effort delete a replace-put performs first:
`deleteDocument` is tried and any exception swallowed, so the container loses
the named document when it was present and is unchanged otherwise. -/
def afterBestEffortDelete (c : List (String × String)) (n : String) :
    List (String × String) :=
  match containerDelete c n with
  | .ok c' => c'
  | .error _ => c

/-- One iteration of the loop body of `c_dbxml_open` (src/c_dbxml.cc:34-59):
clear the sticky error state, set the config read-only on the retry, open or
create the container, then bind the alias; any exception is caught and
recorded in the handle. -/
def cOpenAttempt (eng : Engine) (readOnly : Bool) : c_dbxml_t :=
  let base : c_dbxml_t :=
    { container := if eng.existsCont then eng.diskDocs else []
      error := false
      errstring := ""
      result := "" }
  match (if readOnly then eng.openROFails else eng.openRWFails) with
  | some msg => { base with error := true, errstring := msg }
  | none =>
      if eng.aliasOk then base
      else { base with error := true, errstring := "Unable to add alias \"c_dbxml\"" }

/-- `c_dbxml_open`: first attempt with the default (read-write) config; if it
ends in error, exactly one retry with the config set read-only. -/
def c_dbxml_open (eng : Engine) : c_dbxml_t :=
  let d0 := cOpenAttempt eng false
  if d0.error then cOpenAttempt eng true else d0

/-- `c_dbxml_put_file`: clear the sticky error state; when `replace`,
best-effort delete of the named document with the exception swallowed; then
stream the file in and put it, recording any exception and returning 0. -/
def c_dbxml_put_file (eng : Engine) (db : c_dbxml_t) (filename : String)
    (replace : Bool) : c_dbxml_t × Int :=
  let db := { db with errstring := "", error := false }
  let db :=
    if replace then { db with container := afterBestEffortDelete db.container filename }
    else db
  match eng.files filename with
  | none =>
      ({ db with error := true, errstring := "Cannot open file: " ++ filename }, 0)
  | some data =>
      match containerPut eng.wellFormed db.container filename data with
      | .error msg => ({ db with error := true, errstring := msg }, 0)
      | .ok c => ({ db with container := c }, 1)

/-- `c_dbxml_put_xml`: same replace-then-insert sequence as
`c_dbxml_put_file`, with the content supplied directly. -/
def c_dbxml_put_xml (eng : Engine) (db : c_dbxml_t) (name data : String)
    (replace : Bool) : c_dbxml_t × Int :=
  let db := { db with errstring := "", error := false }
  let db :=
    if replace then { db with container := afterBestEffortDelete db.container name }
    else db
  match containerPut eng.wellFormed db.container name data with
  | .error msg => ({ db with error := true, errstring := msg }, 0)
  | .ok c => ({ db with container := c }, 1)

/-- The document loop of `c_dbxml_merge`: for each source document, best-effort
delete when `replace`, then put; the first put exception aborts with 0. -/
def mergeLoop (wf : String → Bool) (db : c_dbxml_t)
    (docs : List (String × String)) (replace : Bool) : c_dbxml_t × Int :=
  match docs with
  | [] => (db, 1)
  | (n, data) :: rest =>
    let db :=
      if replace then { db with container := afterBestEffortDelete db.container n }
      else db
    match containerPut wf db.container n data with
    | .error msg => ({ db with error := true, errstring := msg }, 0)
    | .ok c => mergeLoop wf { db with container := c } rest replace

/-- `c_dbxml_merge`: clear the sticky error state, then run the merge loop
over the documents of the second container. -/
def c_dbxml_merge (eng : Engine) (db : c_dbxml_t) (file : String)
    (replace : Bool) : c_dbxml_t × Int :=
  let db := { db with errstring := "", error := false }
  mergeLoop eng.wellFormed db (eng.mergeSource file) replace

/-- `c_dbxml_remove`: clear the sticky error state, delete the document,
record any exception and return 0 on failure. -/
def c_dbxml_remove (db : c_dbxml_t) (name : String) : c_dbxml_t × Int :=
  let db := { db with errstring := "", error := false }
  match containerDelete db.container name with
  | .error msg => ({ db with error := true, errstring := msg }, 0)
  | .ok c => ({ db with container := c }, 1)

/-- `c_dbxml_get`: clear the sticky error state, fetch the document content;
on exception the error string itself is returned through the content
channel. -/
def c_dbxml_get (db : c_dbxml_t) (name : String) : c_dbxml_t × String :=
  let db := { db with errstring := "", error := false }
  match findDoc db.container name with
  | some content => ({ db with result := content }, content)
  | none =>
      let msg := "Document not found: " ++ name
      ({ db with error := true, errstring := msg }, msg)

/-- `c_dbxml_size`: returns `container.getNumDocuments()`.  Note that, unlike
the other operations, it does NOT clear the sticky error state. -/
def c_dbxml_size (db : c_dbxml_t) : c_dbxml_t × Nat :=
  (db, db.container.length)

/-- `c_dbxml_get_all`: clear the sticky error state and open a lazy cursor
over every document, with `more` initially true. -/
def c_dbxml_get_all (db : c_dbxml_t) : c_dbxml_t × c_dbxml_docs_t :=
  let db := { db with errstring := "", error := false }
  (db, { it := db.container, doc := ("", ""), more := true, name := "", content := "" })

/-- `c_dbxml_get_query`: clear the sticky error state and construct a lazy
query cursor; on a construction exception the new cursor's `more` is set
false and the handle's error state records the message. -/
def c_dbxml_get_query (eng : Engine) (db : c_dbxml_t) (query : String) :
    c_dbxml_t × c_dbxml_docs_t :=
  let db := { db with errstring := "", error := false }
  let docs0 : c_dbxml_docs_t :=
    { it := [], doc := ("", ""), more := true, name := "", content := "" }
  if eng.queryOk query then
    (db, { docs0 with it := eng.queryRes query })
  else
    ({ db with error := true, errstring := "Malformed query: " ++ query },
     { docs0 with more := false })

/-- `c_dbxml_docs_next`: when `more`, advance the result stream into `doc` and
clear the cached name/content; return 1 iff `more` still holds. -/
def c_dbxml_docs_next (docs : c_dbxml_docs_t) : c_dbxml_docs_t × Int :=
  let docs :=
    if docs.more then
      match docs.it with
      | [] => { docs with more := false, name := "", content := "" }
      | d :: rest => { docs with doc := d, it := rest, more := true, name := "", content := "" }
    else docs
  (docs, if docs.more then 1 else 0)

/-- `c_dbxml_docs_name`: lazily cache and return the current document's
name. -/
def c_dbxml_docs_name (docs : c_dbxml_docs_t) : c_dbxml_docs_t × String :=
  let docs :=
    if docs.more ∧ docs.name = "" then { docs with name := docs.doc.1 } else docs
  (docs, docs.name)

/-- `c_dbxml_docs_content`: lazily cache and return the current document's
content. -/
def c_dbxml_docs_content (docs : c_dbxml_docs_t) : c_dbxml_docs_t × String :=
  let docs :=
    if docs.more ∧ docs.content = "" then { docs with content := docs.doc.2 } else docs
  (docs, docs.content)

/-- The Go `Docs` iterator object.  `hasDb` models whether the back pointer
`docs.db` is non-nil; `docs` is the native cursor handle's state; `finalizer`
records whether `runtime.SetFinalizer` was installed; `freeCount` counts calls
of `c_dbxml_docs_free` on this object's cursor (so release-exactly-once is
expressible). -/
structure Docs where
  hasDb : Bool
  id : Nat
  started : Bool
  opened : Bool
  docs : c_dbxml_docs_t
  finalizer : Bool
  freeCount : Nat
deriving Inhabited, DecidableEq

/-- The Go `Db` connection together with the heap of every `Docs` object ever
allocated by its `All`/`Query` calls.  `docss` is the registry map, stored as
(id, heap address) pairs — the address models the `*Docs` pointer stored in
the Go map.  `freeCount` counts calls of `c_dbxml_free` on the connection
handle; `finalizer` records whether the connection finalizer was installed. -/
structure Db where
  opened : Bool
  db : c_dbxml_t
  next : Nat
  docss : List (Nat × Nat)
  heap : List Docs
  freeCount : Nat
  finalizer : Bool
deriving Inhabited, DecidableEq

/-- The distinguished error `errclosed = errors.New("Database is closed")`. -/
def errclosed : String := "Database is closed"

/-- The zero value `Docs \x7b\x7d` allocated at the top of `All` and
`Query`. -/
def newDocs : Docs :=
  { hasDb := false
    id := 0
    started := false
    opened := false
    docs := default
    finalizer := false
    freeCount := 0 }

/-- Go `Open`: run `c_dbxml_open`; on error free the native handle and return
the (non-open) connection with the error; on success initialize the empty
registry, mark opened, and install the finalizer. -/
def Open (eng : Engine) : Db × Option String :=
  let cdb := c_dbxml_open eng
  if cdb.error then
    ({ opened := false, db := cdb, next := 0, docss := [], heap := []
       freeCount := 1, finalizer := false },
     some cdb.errstring)
  else
    ({ opened := true, db := cdb, next := 0, docss := [], heap := []
       freeCount := 0, finalizer := true },
     none)

/-- Go `(*Docs).close`: when still opened, free the native cursor, mark
closed, delete the entry `docs.id` from the owner's registry, and nil the back
pointer.  `a` is the heap address of the iterator. -/
def Docs.close (w : Db) (a : Nat) : Db :=
  match w.heap[a]? with
  | none => w
  | some d =>
    if d.opened then
      let d' := { d with opened := false, hasDb := false, freeCount := d.freeCount + 1 }
      { w with heap := w.heap.set a d'
               docss := w.docss.filter (fun p => p.1 != d.id) }
    else w

/-- Go `(*Docs).Close`: take the iterator lock and run `close`. -/
def Docs.Close (w : Db) (a : Nat) : Db :=
  Docs.close w a

/-- One iteration of the loop body of `(*Db).Close`: when id `i` is registered,
call `Close` on the iterator the map points to. -/
def Db.closeChild (w : Db) (i : Nat) : Db :=
  match w.docss.find? (fun p => p.1 == i) with
  | some p => Docs.Close w p.2
  | none => w

/-- Go `(*Db).Close`: when opened, walk ids `0 .. next-1`, force-closing every
registered iterator, then free the native container handle and mark the
connection closed; otherwise do nothing. -/
def Db.Close (w : Db) : Db :=
  if w.opened then
    let w' := (List.range w.next).foldl Db.closeChild w
    { w' with freeCount := w'.freeCount + 1, opened := false }
  else w

/-- Go `(*Db).PutFile`. -/
def Db.PutFile (w : Db) (eng : Engine) (filename : String) (replace : Bool) :
    Db × Option String :=
  if !w.opened then (w, some errclosed)
  else
    let r := c_dbxml_put_file eng w.db filename replace
    if r.2 = 0 then ({ w with db := r.1 }, some r.1.errstring)
    else ({ w with db := r.1 }, none)

/-- Go `(*Db).PutXml`. -/
def Db.PutXml (w : Db) (eng : Engine) (name data : String) (replace : Bool) :
    Db × Option String :=
  if !w.opened then (w, some errclosed)
  else
    let r := c_dbxml_put_xml eng w.db name data replace
    if r.2 = 0 then ({ w with db := r.1 }, some r.1.errstring)
    else ({ w with db := r.1 }, none)

/-- Go `(*Db).Merge`. -/
def Db.Merge (w : Db) (eng : Engine) (filename : String) (replace : Bool) :
    Db × Option String :=
  if !w.opened then (w, some errclosed)
  else
    let r := c_dbxml_merge eng w.db filename replace
    if r.2 = 0 then ({ w with db := r.1 }, some r.1.errstring)
    else ({ w with db := r.1 }, none)

/-- Go `(*Db).Remove`. -/
def Db.Remove (w : Db) (name : String) : Db × Option String :=
  if !w.opened then (w, some errclosed)
  else
    let r := c_dbxml_remove w.db name
    if r.2 = 0 then ({ w with db := r.1 }, some r.1.errstring)
    else ({ w with db := r.1 }, none)

/-- Go `(*Db).Get`: on a native error the wrapping layer converts the
overloaded content channel into a proper error and returns empty content. -/
def Db.Get (w : Db) (name : String) : Db × String × Option String :=
  if !w.opened then (w, "", some errclosed)
  else
    let r := c_dbxml_get w.db name
    if r.1.error then ({ w with db := r.1 }, "", some r.2)
    else ({ w with db := r.1 }, r.2, none)

/-- Go `(*Db).Size`. -/
def Db.Size (w : Db) : Db × Nat × Option String :=
  if !w.opened then (w, 0, some errclosed)
  else
    let r := c_dbxml_size w.db
    ({ w with db := r.1 }, r.2, none)

/-- Go `(*Db).All`: allocate the zero `Docs`; on a closed connection return it
with `errclosed`; otherwise open the all-documents cursor, register the
iterator under the fresh id `next`, bump the counter, install the finalizer
and mark it opened.  The returned `Nat` is the new object's heap address. -/
def Db.All (w : Db) : Db × Nat × Option String :=
  let a := w.heap.length
  if !w.opened then
    ({ w with heap := w.heap ++ [newDocs] }, a, some errclosed)
  else
    let r := c_dbxml_get_all w.db
    let d : Docs :=
      { newDocs with docs := r.2, hasDb := true, id := w.next
                     finalizer := true, opened := true }
    ({ w with db := r.1
              next := w.next + 1
              docss := w.docss ++ [(w.next, a)]
              heap := w.heap ++ [d] },
     a, none)

/-- Go `(*Db).Query`: allocate the zero `Docs`; on a closed connection return
it with `errclosed`; run `c_dbxml_get_query` and store the cursor in the
object; on a construction error return the object (unregistered, not opened,
no finalizer) together with the error; on success register it exactly as
`All` does. -/
def Db.Query (w : Db) (eng : Engine) (query : String) : Db × Nat × Option String :=
  let a := w.heap.length
  if !w.opened then
    ({ w with heap := w.heap ++ [newDocs] }, a, some errclosed)
  else
    let r := c_dbxml_get_query eng w.db query
    if r.1.error then
      ({ w with db := r.1, heap := w.heap ++ [{ newDocs with docs := r.2 }] },
       a, some r.1.errstring)
    else
      let d : Docs :=
        { newDocs with docs := r.2, hasDb := true, id := w.next
                       finalizer := true, opened := true }
      ({ w with db := r.1
                next := w.next + 1
                docss := w.docss ++ [(w.next, a)]
                heap := w.heap ++ [d] },
       a, none)

/-- Go `(*Docs).Next`: false when closed; otherwise set `started`, advance the
native cursor, and when advancement fails self-close (deregistering) and
return false, else return true. -/
def Docs.Next (w : Db) (a : Nat) : Db × Bool :=
  match w.heap[a]? with
  | none => (w, false)
  | some d =>
    if !d.opened then (w, false)
    else
      let r := c_dbxml_docs_next d.docs
      let d' := { d with started := true, docs := r.1 }
      let w' := { w with heap := w.heap.set a d' }
      if r.2 = 0 then (Docs.close w' a, false)
      else (w', true)

/-- Go `(*Docs).Name`: empty string unless opened and started; otherwise the
(lazily cached) current document name from the native cursor. -/
def Docs.Name (w : Db) (a : Nat) : Db × String :=
  match w.heap[a]? with
  | none => (w, "")
  | some d =>
    if !(d.opened && d.started) then (w, "")
    else
      let r := c_dbxml_docs_name d.docs
      ({ w with heap := w.heap.set a { d with docs := r.1 } }, r.2)

/-- Go `(*Docs).Content`: empty string unless opened and started; otherwise
the (lazily cached) current document content from the native cursor. -/
def Docs.Content (w : Db) (a : Nat) : Db × String :=
  match w.heap[a]? with
  | none => (w, "")
  | some d =>
    if !(d.opened && d.started) then (w, "")
    else
      let r := c_dbxml_docs_content d.docs
      ({ w with heap := w.heap.set a { d with docs := r.1 } }, r.2)

/-- The heap object at address `a` (meaningful when `a < l.length`). -/
def heapAt (l : List Docs) (a : Nat) : Docs :=
  (l[a]?).getD default

/-- The connection invariant: every registry entry points at a live, opened,
back-referencing iterator whose `id` is the entry's key and is below the
counter; every opened heap object is registered under its id; and registry
keys are unique. -/
def DbInv (w : Db) : Prop :=
  (∀ p ∈ w.docss,
      p.2 < w.heap.length ∧ (heapAt w.heap p.2).id = p.1 ∧
      (heapAt w.heap p.2).opened = true ∧ (heapAt w.heap p.2).hasDb = true ∧ p.1 < w.next)
  ∧ (∀ a ∈ List.range w.heap.length,
      (heapAt w.heap a).opened = true → ((heapAt w.heap a).id, a) ∈ w.docss)
  ∧ (w.docss.map Prod.fst).Nodup

instance DbInv.decidable (w : Db) : Decidable (DbInv w) := by
  unfold DbInv
  exact inferInstance

/-- The operations a program can perform on a connection and its iterators:
one step of the bridge's state machine. -/
inductive Step : Db → Db → Prop where
  | putFile : ∀ (w : Db) (eng : Engine) (f : String) (r : Bool),
      Step w (Db.PutFile w eng f r).1
  | putXml : ∀ (w : Db) (eng : Engine) (n d : String) (r : Bool),
      Step w (Db.PutXml w eng n d r).1
  | merge : ∀ (w : Db) (eng : Engine) (f : String) (r : Bool),
      Step w (Db.Merge w eng f r).1
  | remove : ∀ (w : Db) (n : String), Step w (Db.Remove w n).1
  | get : ∀ (w : Db) (n : String), Step w (Db.Get w n).1
  | size : ∀ (w : Db), Step w (Db.Size w).1
  | all : ∀ (w : Db), Step w (Db.All w).1
  | query : ∀ (w : Db) (eng : Engine) (q : String), Step w (Db.Query w eng q).1
  | dbClose : ∀ (w : Db), Step w (Db.Close w)
  | docsNext : ∀ (w : Db) (a : Nat), Step w (Docs.Next w a).1
  | docsName : ∀ (w : Db) (a : Nat), Step w (Docs.Name w a).1
  | docsContent : ∀ (w : Db) (a : Nat), Step w (Docs.Content w a).1
  | docsClose : ∀ (w : Db) (a : Nat), Step w (Docs.Close w a)

/-- A state is reachable when it arises from `Open` by any sequence of
operations. -/
def Reachable (eng : Engine) (w : Db) : Prop :=
  Relation.ReflTransGen Step (Open eng).1 w

/-- The iterator at address `a` exists and is closed. -/
def closedAt (w : Db) (a : Nat) : Prop :=
  ∃ d, w.heap[a]? = some d ∧ d.opened = false

/-! ### Concrete fixtures -/

/-- An engine where everything succeeds: fresh container, no files, all
documents well-formed, all queries valid (with no results). -/
def engOk : Engine :=
  { existsCont := false
    diskDocs := []
    openRWFails := none
    openROFails := none
    aliasOk := true
    files := fun _ => none
    wellFormed := fun _ => true
    queryOk := fun _ => true
    queryRes := fun _ => []
    mergeSource := fun _ => [] }

/-- An engine whose query construction always throws. -/
def engQBad : Engine := { engOk with queryOk := fun _ => false }

/-- An engine where both open attempts throw. -/
def engFailOpen : Engine :=
  { engOk with openRWFails := some "no write access", openROFails := some "no read access" }

/-- An engine over an existing container with two documents. -/
def engDocs : Engine :=
  { engOk with existsCont := true, diskDocs := [("a", "xml-a"), ("b", "xml-b")] }

/-- A freshly opened connection. -/
def wOpen : Db := (Open engOk).1

/-- The connection after `All` created and registered one iterator
(heap address 0, id 0). -/
def wAll : Db := (Db.All wOpen).1

/-- That iterator. -/
def dAll : Docs := heapAt wAll.heap 0

/-- A connection over two documents with one registered `All` iterator. -/
def wDocs : Db := (Db.All (Open engDocs).1).1

/-- That iterator. -/
def dDocs : Docs := heapAt wDocs.heap 0

/-- A connection that has been closed. -/
def wClosed : Db := Db.Close wOpen

/-- A native handle whose sticky error flag is still set from a previous
failed operation. -/
def cdbStale : c_dbxml_t :=
  { container := [("a", "<a/>")], error := true, errstring := "stale failure", result := "" }

example : DbInv wAll := by decide
example : wAll.opened = true := by decide
example : wAll.docss = [(0, 0)] := by decide
example : dAll.opened = true := by decide
example : wAll.heap[0]? = some dAll := by decide
example : (Docs.Next wAll 0).2 = false := by decide
example : (Docs.Next wDocs 0).2 = true := by decide
example : (Docs.Name (Docs.Next wDocs 0).1 0).2 = "a" := by decide
example : wClosed.opened = false := by decide
example : DbInv wDocs := by decide
example : (Db.Close wAll).docss = [] := by decide
example : (c_dbxml_size cdbStale).1.error = true := by decide
example : (Db.Query wOpen engQBad "//x").2.2.isSome = true := by decide

/-- An empty, error-free native handle. -/
def cdbEmpty : c_dbxml_t :=
  { container := [], error := false, errstring := "", result := "" }


/-! ### Helper lemmas about the heap and the registry -/

lemma heapAt_eq {l : List Docs} {a : Nat} {d : Docs} (h : l[a]? = some d) :
    heapAt l a = d := by
  simp [heapAt, h]

lemma lt_of_heap_some {l : List Docs} {a : Nat} {d : Docs} (h : l[a]? = some d) :
    a < l.length := by
  by_contra hc
  push_neg at hc
  rw [List.getElem?_eq_none hc] at h
  exact Option.noConfusion h

lemma heap_some_of_lt {l : List Docs} {a : Nat} (h : a < l.length) :
    l[a]? = some (heapAt l a) := by
  rw [List.getElem?_eq_getElem h]
  simp [heapAt, List.getElem?_eq_getElem h]

lemma heapAt_set_ne {l : List Docs} {a b : Nat} (d : Docs) (h : a ≠ b) :
    heapAt (l.set a d) b = heapAt l b := by
  simp [heapAt, List.getElem?_set_ne h]

lemma heapAt_set_self {l : List Docs} {a : Nat} (d : Docs) (h : a < l.length) :
    heapAt (l.set a d) a = d := by
  simp [heapAt, List.getElem?_set_self, h]

lemma heapAt_append_left {l t : List Docs} {a : Nat} (h : a < l.length) :
    heapAt (l ++ t) a = heapAt l a := by
  simp [heapAt, List.getElem?_append_left h]

lemma heapAt_concat_self (l : List Docs) (d : Docs) :
    heapAt (l ++ [d]) l.length = d := by
  simp [heapAt, List.getElem?_concat_length]

lemma nodup_keys_eq {l : List (Nat × Nat)} (h : (l.map Prod.fst).Nodup)
    {k v1 v2 : Nat} (h1 : (k, v1) ∈ l) (h2 : (k, v2) ∈ l) : v1 = v2 := by
  induction l with
  | nil => simp at h1
  | cons p t ih =>
    rw [List.map_cons, List.nodup_cons] at h
    obtain ⟨hp, ht⟩ := h
    rcases List.mem_cons.mp h1 with h1e | h1t
    · rcases List.mem_cons.mp h2 with h2e | h2t
      · have : (k, v1) = (k, v2) := h1e.trans h2e.symm
        exact congrArg Prod.snd this
      · exfalso
        apply hp
        rw [← h1e]
        simpa using List.mem_map_of_mem Prod.fst h2t
    · rcases List.mem_cons.mp h2 with h2e | h2t
      · exfalso
        apply hp
        rw [← h2e]
        simpa using List.mem_map_of_mem Prod.fst h1t
      · exact ih ht h1t h2t

/-! ### Behaviour of `Docs.close` -/

lemma Docs.close_none {w : Db} {a : Nat} (h : w.heap[a]? = none) :
    Docs.close w a = w := by
  simp [Docs.close, h]

lemma Docs.close_closed {w : Db} {a : Nat} {d : Docs} (h : w.heap[a]? = some d)
    (hop : d.opened = false) : Docs.close w a = w := by
  simp [Docs.close, h, hop]

lemma Docs.close_spec {w : Db} {a : Nat} {d : Docs} (h : w.heap[a]? = some d)
    (hop : d.opened = true) :
    Docs.close w a =
      { w with
        heap := w.heap.set a { d with opened := false, hasDb := false, freeCount := d.freeCount + 1 }
        docss := w.docss.filter (fun p => p.1 != d.id) } := by
  simp [Docs.close, h, hop]

lemma Docs.close_fields (w : Db) (a : Nat) :
    (Docs.close w a).opened = w.opened ∧ (Docs.close w a).db = w.db ∧
    (Docs.close w a).next = w.next ∧ (Docs.close w a).freeCount = w.freeCount ∧
    (Docs.close w a).finalizer = w.finalizer ∧
    (Docs.close w a).heap.length = w.heap.length := by
  cases h : w.heap[a]? with
  | none => simp [Docs.close, h]
  | some d =>
    by_cases hop : d.opened
    · simp [Docs.close, h, hop]
    · simp [Docs.close, h, hop]

lemma close_inv {w : Db} (a : Nat) (hw : DbInv w) : DbInv (Docs.close w a) := by
  obtain ⟨hreg, hopen, hnd⟩ := hw
  cases h : w.heap[a]? with
  | none => rw [Docs.close_none h]; exact ⟨hreg, hopen, hnd⟩
  | some d =>
    by_cases hop : d.opened
    · rw [Docs.close_spec h hop]
      have ha : a < w.heap.length := lt_of_heap_some h
      have hda : heapAt w.heap a = d := heapAt_eq h
      refine ⟨?_, ?_, ?_⟩
      · intro p hp
        obtain ⟨hpm, hpne⟩ := List.mem_filter.mp hp
        have hpne' : p.1 ≠ d.id := by simpa using hpne
        obtain ⟨hlt, hid, hpo, hdb, hn⟩ := hreg p hpm
        have hpa : p.2 ≠ a := by
          intro he
          apply hpne'
          rw [← hid, he, hda]
        constructor
        · simpa [List.length_set] using hlt
        · rw [heapAt_set_ne _ (fun he => hpa he.symm)]
          exact ⟨hid, hpo, hdb, hn⟩
      · intro b hb hbo
        rw [List.length_set] at hb
        by_cases hba : b = a
        · subst hba
          rw [heapAt_set_self _ ha] at hbo
          simp at hbo
        · rw [heapAt_set_ne _ (fun he => hba he.symm)] at hbo ⊢
          have hmem := hopen b hb hbo
          apply List.mem_filter.mpr
          refine ⟨hmem, ?_⟩
          simp only [bne_iff_ne, ne_eq, decide_eq_true_eq]
          intro hkey
          have hmemd : (d.id, a) ∈ w.docss := by
            have := hopen a (List.mem_range.mpr ha)
            rw [hda] at this
            exact this hop
          rw [hkey] at hmem
          exact hba (nodup_keys_eq hnd hmem hmemd)
      · exact List.Nodup.sublist ((List.filter_sublist _).map Prod.fst) hnd
    · rw [Docs.close_closed h (by simpa using hop)]
      exact ⟨hreg, hopen, hnd⟩

/-! ### Equation lemmas for the Go-layer operations -/

lemma Db.PutFile_closed {w : Db} (eng : Engine) (f : String) (r : Bool)
    (h : w.opened = false) : Db.PutFile w eng f r = (w, some errclosed) := by
  simp [Db.PutFile, h]

lemma Db.PutFile_open {w : Db} (eng : Engine) (f : String) (r : Bool)
    (h : w.opened = true) :
    Db.PutFile w eng f r =
      (if (c_dbxml_put_file eng w.db f r).2 = 0 then
        ({ w with db := (c_dbxml_put_file eng w.db f r).1 },
         some (c_dbxml_put_file eng w.db f r).1.errstring)
      else ({ w with db := (c_dbxml_put_file eng w.db f r).1 }, none)) := by
  simp [Db.PutFile, h]

lemma Db.PutXml_closed {w : Db} (eng : Engine) (n d : String) (r : Bool)
    (h : w.opened = false) : Db.PutXml w eng n d r = (w, some errclosed) := by
  simp [Db.PutXml, h]

lemma Db.PutXml_open {w : Db} (eng : Engine) (n d : String) (r : Bool)
    (h : w.opened = true) :
    Db.PutXml w eng n d r =
      (if (c_dbxml_put_xml eng w.db n d r).2 = 0 then
        ({ w with db := (c_dbxml_put_xml eng w.db n d r).1 },
         some (c_dbxml_put_xml eng w.db n d r).1.errstring)
      else ({ w with db := (c_dbxml_put_xml eng w.db n d r).1 }, none)) := by
  simp [Db.PutXml, h]

lemma Db.Merge_closed {w : Db} (eng : Engine) (f : String) (r : Bool)
    (h : w.opened = false) : Db.Merge w eng f r = (w, some errclosed) := by
  simp [Db.Merge, h]

lemma Db.Merge_open {w : Db} (eng : Engine) (f : String) (r : Bool)
    (h : w.opened = true) :
    Db.Merge w eng f r =
      (if (c_dbxml_merge eng w.db f r).2 = 0 then
        ({ w with db := (c_dbxml_merge eng w.db f r).1 },
         some (c_dbxml_merge eng w.db f r).1.errstring)
      else ({ w with db := (c_dbxml_merge eng w.db f r).1 }, none)) := by
  simp [Db.Merge, h]

lemma Db.Remove_closed {w : Db} (n : String) (h : w.opened = false) :
    Db.Remove w n = (w, some errclosed) := by
  simp [Db.Remove, h]

lemma Db.Remove_open {w : Db} (n : String) (h : w.opened = true) :
    Db.Remove w n =
      (if (c_dbxml_remove w.db n).2 = 0 then
        ({ w with db := (c_dbxml_remove w.db n).1 },
         some (c_dbxml_remove w.db n).1.errstring)
      else ({ w with db := (c_dbxml_remove w.db n).1 }, none)) := by
  simp [Db.Remove, h]

lemma Db.Get_closed {w : Db} (n : String) (h : w.opened = false) :
    Db.Get w n = (w, "", some errclosed) := by
  simp [Db.Get, h]

lemma Db.Get_open {w : Db} (n : String) (h : w.opened = true) :
    Db.Get w n =
      (if (c_dbxml_get w.db n).1.error = true then
        ({ w with db := (c_dbxml_get w.db n).1 }, "", some (c_dbxml_get w.db n).2)
      else ({ w with db := (c_dbxml_get w.db n).1 }, (c_dbxml_get w.db n).2, none)) := by
  simp [Db.Get, h]

lemma Db.Size_closed {w : Db} (h : w.opened = false) :
    Db.Size w = (w, 0, some errclosed) := by
  simp [Db.Size, h]

lemma Db.Size_open {w : Db} (h : w.opened = true) :
    Db.Size w = ({ w with db := (c_dbxml_size w.db).1 }, (c_dbxml_size w.db).2, none) := by
  simp [Db.Size, h]

lemma Db.All_closed {w : Db} (h : w.opened = false) :
    Db.All w = ({ w with heap := w.heap ++ [newDocs] }, w.heap.length, some errclosed) := by
  simp [Db.All, h]

lemma Db.All_open {w : Db} (h : w.opened = true) :
    Db.All w =
      ({ w with db := (c_dbxml_get_all w.db).1
                next := w.next + 1
                docss := w.docss ++ [(w.next, w.heap.length)]
                heap := w.heap ++ [{ newDocs with docs := (c_dbxml_get_all w.db).2
                                                  hasDb := true, id := w.next
                                                  finalizer := true, opened := true }] },
       w.heap.length, none) := by
  simp [Db.All, h]

lemma Db.Query_closed {w : Db} (eng : Engine) (q : String) (h : w.opened = false) :
    Db.Query w eng q = ({ w with heap := w.heap ++ [newDocs] }, w.heap.length, some errclosed) := by
  simp [Db.Query, h]

lemma Db.Query_fail {w : Db} (eng : Engine) (q : String) (h : w.opened = true)
    (hq : (c_dbxml_get_query eng w.db q).1.error = true) :
    Db.Query w eng q =
      ({ w with db := (c_dbxml_get_query eng w.db q).1
                heap := w.heap ++ [{ newDocs with docs := (c_dbxml_get_query eng w.db q).2 }] },
       w.heap.length, some (c_dbxml_get_query eng w.db q).1.errstring) := by
  simp [Db.Query, h, hq]

lemma Db.Query_ok {w : Db} (eng : Engine) (q : String) (h : w.opened = true)
    (hq : (c_dbxml_get_query eng w.db q).1.error = false) :
    Db.Query w eng q =
      ({ w with db := (c_dbxml_get_query eng w.db q).1
                next := w.next + 1
                docss := w.docss ++ [(w.next, w.heap.length)]
                heap := w.heap ++ [{ newDocs with docs := (c_dbxml_get_query eng w.db q).2
                                                  hasDb := true, id := w.next
                                                  finalizer := true, opened := true }] },
       w.heap.length, none) := by
  simp [Db.Query, h, hq]

lemma Db.Close_noop {w : Db} (h : w.opened = false) : Db.Close w = w := by
  simp [Db.Close, h]

lemma Db.Close_run {w : Db} (h : w.opened = true) :
    Db.Close w =
      { (List.range w.next).foldl Db.closeChild w with
        freeCount := ((List.range w.next).foldl Db.closeChild w).freeCount + 1
        opened := false } := by
  simp [Db.Close, h]

lemma Docs.Next_none {w : Db} {a : Nat} (h : w.heap[a]? = none) :
    Docs.Next w a = (w, false) := by
  simp [Docs.Next, h]

lemma Docs.Next_closed {w : Db} {a : Nat} {d : Docs} (h : w.heap[a]? = some d)
    (hop : d.opened = false) : Docs.Next w a = (w, false) := by
  simp [Docs.Next, h, hop]

lemma Docs.Next_stop {w : Db} {a : Nat} {d : Docs} (h : w.heap[a]? = some d)
    (hop : d.opened = true) (hz : (c_dbxml_docs_next d.docs).2 = 0) :
    Docs.Next w a =
      (Docs.close
        { w with heap := w.heap.set a ({ d with started := true, docs := (c_dbxml_docs_next d.docs).1 }) } a,
       false) := by
  simp [Docs.Next, h, hop, hz]

lemma Docs.Next_go {w : Db} {a : Nat} {d : Docs} (h : w.heap[a]? = some d)
    (hop : d.opened = true) (hz : ¬(c_dbxml_docs_next d.docs).2 = 0) :
    Docs.Next w a =
      ({ w with heap := w.heap.set a ({ d with started := true, docs := (c_dbxml_docs_next d.docs).1 }) },
       true) := by
  simp [Docs.Next, h, hop, hz]

lemma Docs.Name_none {w : Db} {a : Nat} (h : w.heap[a]? = none) :
    Docs.Name w a = (w, "") := by
  simp [Docs.Name, h]

lemma Docs.Name_stopped {w : Db} {a : Nat} {d : Docs} (h : w.heap[a]? = some d)
    (hg : (d.opened && d.started) = false) : Docs.Name w a = (w, "") := by
  simp [Docs.Name, h, hg]

lemma Docs.Name_run {w : Db} {a : Nat} {d : Docs} (h : w.heap[a]? = some d)
    (hop : d.opened = true) (hst : d.started = true) :
    Docs.Name w a =
      ({ w with heap := w.heap.set a { d with docs := (c_dbxml_docs_name d.docs).1 } },
       (c_dbxml_docs_name d.docs).2) := by
  simp [Docs.Name, h, hop, hst]

lemma Docs.Content_none {w : Db} {a : Nat} (h : w.heap[a]? = none) :
    Docs.Content w a = (w, "") := by
  simp [Docs.Content, h]

lemma Docs.Content_stopped {w : Db} {a : Nat} {d : Docs} (h : w.heap[a]? = some d)
    (hg : (d.opened && d.started) = false) : Docs.Content w a = (w, "") := by
  simp [Docs.Content, h, hg]

lemma Docs.Content_run {w : Db} {a : Nat} {d : Docs} (h : w.heap[a]? = some d)
    (hop : d.opened = true) (hst : d.started = true) :
    Docs.Content w a =
      ({ w with heap := w.heap.set a { d with docs := (c_dbxml_docs_content d.docs).1 } },
       (c_dbxml_docs_content d.docs).2) := by
  simp [Docs.Content, h, hop, hst]

/-! ### Invariant preservation -/

lemma lt_length_append (l t : List Docs) (a : Nat) (h : a < l.length) :
    a < (l ++ t).length := by
  rw [List.length_append]
  omega

lemma length_lt_concat (l : List Docs) (d : Docs) : l.length < (l ++ [d]).length := by
  rw [List.length_append]
  simp

lemma inv_heap_set {w : Db} {a : Nat} {d : Docs} (d' : Docs)
    (h : w.heap[a]? = some d) (hid : d'.id = d.id) (hop : d'.opened = d.opened)
    (hdb : d'.hasDb = d.hasDb) (hw : DbInv w) :
    DbInv { w with heap := w.heap.set a d' } := by
  obtain ⟨hreg, hopen, hnd⟩ := hw
  have ha : a < w.heap.length := lt_of_heap_some h
  have hda : heapAt w.heap a = d := heapAt_eq h
  refine ⟨?_, ?_, hnd⟩
  · intro p hp
    obtain ⟨hlt, hid2, hpo, hdb2, hn⟩ := hreg p hp
    by_cases hpa : p.2 = a
    · rw [hpa, heapAt_set_self _ ha]
      rw [hpa, hda] at hid2 hpo hdb2
      refine ⟨?_, ?_, ?_, ?_, hn⟩
      · show a < (w.heap.set a d').length
        rw [List.length_set, ← hpa]
        exact hlt
      · rw [hid, hid2]
      · rw [hop, hpo]
      · rw [hdb, hdb2]
    · rw [heapAt_set_ne _ (fun he => hpa he.symm)]
      refine ⟨?_, hid2, hpo, hdb2, hn⟩
      show p.2 < (w.heap.set a d').length
      rw [List.length_set]
      exact hlt
  · intro b hb hbo
    have hb' : b < w.heap.length := by
      have := List.mem_range.mp hb
      rwa [List.length_set] at this
    by_cases hba : b = a
    · subst hba
      rw [heapAt_set_self _ ha] at hbo ⊢
      rw [hid]
      rw [hop] at hbo
      have := hopen b (List.mem_range.mpr hb') (by rw [hda]; exact hbo)
      rw [hda] at this
      exact this
    · rw [heapAt_set_ne _ (fun he => hba he.symm)] at hbo ⊢
      exact hopen b (List.mem_range.mpr hb') hbo

lemma inv_heap_append_closed {w : Db} {d : Docs} (hd : d.opened = false)
    (hw : DbInv w) : DbInv { w with heap := w.heap ++ [d] } := by
  obtain ⟨hreg, hopen, hnd⟩ := hw
  refine ⟨?_, ?_, hnd⟩
  · intro p hp
    obtain ⟨hlt, hid, hpo, hdb, hn⟩ := hreg p hp
    rw [heapAt_append_left hlt]
    exact ⟨lt_length_append _ _ _ hlt, hid, hpo, hdb, hn⟩
  · intro b hb hbo
    have hb' : b < w.heap.length + 1 := by
      have := List.mem_range.mp hb
      rwa [List.length_append, List.length_singleton] at this
    by_cases hbl : b < w.heap.length
    · rw [heapAt_append_left hbl] at hbo ⊢
      exact hopen b (List.mem_range.mpr hbl) hbo
    · have hbe : b = w.heap.length := by omega
      subst hbe
      rw [heapAt_concat_self] at hbo
      rw [hd] at hbo
      exact absurd hbo (by simp)

lemma inv_register {w : Db} (x : c_dbxml_t) (cd : c_dbxml_docs_t) (hw : DbInv w) :
    DbInv { w with
            db := x
            next := w.next + 1
            docss := w.docss ++ [(w.next, w.heap.length)]
            heap := w.heap ++ [{ newDocs with docs := cd, hasDb := true, id := w.next
                                              finalizer := true, opened := true }] } := by
  obtain ⟨hreg, hopen, hnd⟩ := hw
  refine ⟨?_, ?_, ?_⟩
  · intro p hp
    rcases List.mem_append.mp hp with hpo | hpn
    · obtain ⟨hlt, hid, hpo2, hdb, hn⟩ := hreg p hpo
      rw [heapAt_append_left hlt]
      exact ⟨lt_length_append _ _ _ hlt, hid, hpo2, hdb, Nat.lt_succ_of_lt hn⟩
    · have hpe : p = (w.next, w.heap.length) := by simpa using hpn
      rw [hpe]
      rw [heapAt_concat_self]
      exact ⟨length_lt_concat _ _, rfl, rfl, rfl, Nat.lt_succ_self _⟩
  · intro b hb hbo
    have hb' : b < w.heap.length + 1 := by
      have := List.mem_range.mp hb
      rwa [List.length_append, List.length_singleton] at this
    by_cases hbl : b < w.heap.length
    · rw [heapAt_append_left hbl] at hbo ⊢
      exact List.mem_append_left _ (hopen b (List.mem_range.mpr hbl) hbo)
    · have hbe : b = w.heap.length := by omega
      subst hbe
      rw [heapAt_concat_self]
      exact List.mem_append_right _ (by simp)
  · rw [List.map_append, List.nodup_append]
    refine ⟨hnd, List.nodup_singleton _, ?_⟩
    intro k hk hk2
    have hke : k = w.next := by simpa using hk2
    subst hke
    obtain ⟨p, hp, hfst⟩ := List.mem_map.mp hk
    have := (hreg p hp).2.2.2.2
    omega

lemma inv_PutFile {w : Db} (eng : Engine) (f : String) (r : Bool) (hw : DbInv w) :
    DbInv (Db.PutFile w eng f r).1 := by
  by_cases h : w.opened
  · rw [Db.PutFile_open eng f r h]
    split
    · exact hw
    · exact hw
  · rw [Db.PutFile_closed eng f r (by simpa using h)]
    exact hw

lemma inv_PutXml {w : Db} (eng : Engine) (n d : String) (r : Bool) (hw : DbInv w) :
    DbInv (Db.PutXml w eng n d r).1 := by
  by_cases h : w.opened
  · rw [Db.PutXml_open eng n d r h]
    split
    · exact hw
    · exact hw
  · rw [Db.PutXml_closed eng n d r (by simpa using h)]
    exact hw

lemma inv_Merge {w : Db} (eng : Engine) (f : String) (r : Bool) (hw : DbInv w) :
    DbInv (Db.Merge w eng f r).1 := by
  by_cases h : w.opened
  · rw [Db.Merge_open eng f r h]
    split
    · exact hw
    · exact hw
  · rw [Db.Merge_closed eng f r (by simpa using h)]
    exact hw

lemma inv_Remove {w : Db} (n : String) (hw : DbInv w) : DbInv (Db.Remove w n).1 := by
  by_cases h : w.opened
  · rw [Db.Remove_open n h]
    split
    · exact hw
    · exact hw
  · rw [Db.Remove_closed n (by simpa using h)]
    exact hw

lemma inv_Get {w : Db} (n : String) (hw : DbInv w) : DbInv (Db.Get w n).1 := by
  by_cases h : w.opened
  · rw [Db.Get_open n h]
    split
    · exact hw
    · exact hw
  · rw [Db.Get_closed n (by simpa using h)]
    exact hw

lemma inv_Size {w : Db} (hw : DbInv w) : DbInv (Db.Size w).1 := by
  by_cases h : w.opened
  · rw [Db.Size_open h]
    exact hw
  · rw [Db.Size_closed (by simpa using h)]
    exact hw

lemma inv_All {w : Db} (hw : DbInv w) : DbInv (Db.All w).1 := by
  by_cases h : w.opened
  · rw [Db.All_open h]
    exact inv_register _ _ hw
  · rw [Db.All_closed (by simpa using h)]
    exact inv_heap_append_closed rfl hw

lemma inv_Query {w : Db} (eng : Engine) (q : String) (hw : DbInv w) :
    DbInv (Db.Query w eng q).1 := by
  by_cases h : w.opened
  · by_cases hq : (c_dbxml_get_query eng w.db q).1.error
    · rw [Db.Query_fail eng q h hq]
      exact inv_heap_append_closed rfl hw
    · rw [Db.Query_ok eng q h (by simpa using hq)]
      exact inv_register _ _ hw
  · rw [Db.Query_closed eng q (by simpa using h)]
    exact inv_heap_append_closed rfl hw

lemma inv_Next {w : Db} (a : Nat) (hw : DbInv w) : DbInv (Docs.Next w a).1 := by
  cases h : w.heap[a]? with
  | none => rw [Docs.Next_none h]; exact hw
  | some d =>
    by_cases hop : d.opened
    · by_cases hz : (c_dbxml_docs_next d.docs).2 = 0
      · rw [Docs.Next_stop h hop hz]
        exact close_inv a (inv_heap_set _ h rfl rfl rfl hw)
      · rw [Docs.Next_go h hop hz]
        exact inv_heap_set _ h rfl rfl rfl hw
    · rw [Docs.Next_closed h (by simpa using hop)]
      exact hw

lemma inv_Name {w : Db} (a : Nat) (hw : DbInv w) : DbInv (Docs.Name w a).1 := by
  cases h : w.heap[a]? with
  | none => rw [Docs.Name_none h]; exact hw
  | some d =>
    by_cases hg : (d.opened && d.started) = true
    · obtain ⟨hop, hst⟩ := Bool.and_eq_true_iff.mp hg
      rw [Docs.Name_run h hop hst]
      exact inv_heap_set _ h rfl rfl rfl hw
    · rw [Docs.Name_stopped h (by simpa using hg)]
      exact hw

lemma inv_Content {w : Db} (a : Nat) (hw : DbInv w) : DbInv (Docs.Content w a).1 := by
  cases h : w.heap[a]? with
  | none => rw [Docs.Content_none h]; exact hw
  | some d =>
    by_cases hg : (d.opened && d.started) = true
    · obtain ⟨hop, hst⟩ := Bool.and_eq_true_iff.mp hg
      rw [Docs.Content_run h hop hst]
      exact inv_heap_set _ h rfl rfl rfl hw
    · rw [Docs.Content_stopped h (by simpa using hg)]
      exact hw

lemma inv_closeChild {w : Db} (i : Nat) (hw : DbInv w) : DbInv (Db.closeChild w i) := by
  unfold Db.closeChild
  cases h : w.docss.find? (fun p => p.1 == i) with
  | none => exact hw
  | some p => exact close_inv p.2 hw

lemma inv_foldl_closeChild (L : List Nat) :
    ∀ (w : Db), DbInv w → DbInv (L.foldl Db.closeChild w) := by
  induction L with
  | nil => intro w hw; exact hw
  | cons i t ih =>
    intro w hw
    exact ih (Db.closeChild w i) (inv_closeChild i hw)

lemma inv_DbClose {w : Db} (hw : DbInv w) : DbInv (Db.Close w) := by
  by_cases h : w.opened
  · rw [Db.Close_run h]
    exact inv_foldl_closeChild (List.range w.next) w hw
  · rw [Db.Close_noop (by simpa using h)]
    exact hw

lemma inv_step {w w' : Db} (hs : Step w w') (hw : DbInv w) : DbInv w' := by
  cases hs with
  | putFile eng f r => exact inv_PutFile eng f r hw
  | putXml eng n d r => exact inv_PutXml eng n d r hw
  | merge eng f r => exact inv_Merge eng f r hw
  | remove n => exact inv_Remove n hw
  | get n => exact inv_Get n hw
  | size => exact inv_Size hw
  | all => exact inv_All hw
  | query eng q => exact inv_Query eng q hw
  | dbClose => exact inv_DbClose hw
  | docsNext a => exact inv_Next a hw
  | docsName a => exact inv_Name a hw
  | docsContent a => exact inv_Content a hw
  | docsClose a => exact close_inv a hw

lemma inv_Open (eng : Engine) : DbInv (Open eng).1 := by
  unfold Open
  by_cases h : (c_dbxml_open eng).error
  · simp only [h, if_true]
    exact ⟨by simp, by simp, by simp⟩
  · simp only [h, if_false]
    exact ⟨by simp, by simp, by simp⟩

/-! ### The force-close loop of `Db.Close` -/

lemma Db.closeChild_fields (w : Db) (i : Nat) :
    (Db.closeChild w i).opened = w.opened ∧ (Db.closeChild w i).db = w.db ∧
    (Db.closeChild w i).next = w.next ∧ (Db.closeChild w i).freeCount = w.freeCount ∧
    (Db.closeChild w i).finalizer = w.finalizer ∧
    (Db.closeChild w i).heap.length = w.heap.length := by
  unfold Db.closeChild
  cases h : w.docss.find? (fun p => p.1 == i) with
  | none => exact ⟨rfl, rfl, rfl, rfl, rfl, rfl⟩
  | some p => exact Docs.close_fields w p.2

lemma closeAll_spec (L : List Nat) :
    ∀ (w : Db), DbInv w → (∀ p ∈ w.docss, p.1 ∈ L) →
    (L.foldl Db.closeChild w).docss = [] ∧
    (L.foldl Db.closeChild w).opened = w.opened ∧
    (L.foldl Db.closeChild w).db = w.db ∧
    (L.foldl Db.closeChild w).next = w.next ∧
    (L.foldl Db.closeChild w).freeCount = w.freeCount ∧
    (L.foldl Db.closeChild w).finalizer = w.finalizer ∧
    (L.foldl Db.closeChild w).heap.length = w.heap.length := by
  induction L with
  | nil =>
    intro w hw hL
    refine ⟨?_, rfl, rfl, rfl, rfl, rfl, rfl⟩
    exact List.eq_nil_iff_forall_not_mem.mpr (fun p hp => by simpa using hL p hp)
  | cons i t ih =>
    intro w hw hL
    have hw1 : DbInv (Db.closeChild w i) := inv_closeChild i hw
    have hL1 : ∀ p ∈ (Db.closeChild w i).docss, p.1 ∈ t := by
      unfold Db.closeChild
      cases hf : w.docss.find? (fun p => p.1 == i) with
      | none =>
        intro p hp
        have hne : ¬(p.1 == i) = true := List.find?_eq_none.mp hf p hp
        have := hL p hp
        rcases List.mem_cons.mp this with he | ht
        · exact absurd he (by simpa using hne)
        · exact ht
      | some q =>
        have hqmem : q ∈ w.docss := List.mem_of_find?_eq_some hf
        have hqi : q.1 = i := by simpa using List.find?_some hf
        obtain ⟨hreg, _, _⟩ := hw
        obtain ⟨hlt, hid, hop, _, _⟩ := hreg q hqmem
        have hq2 : w.heap[q.2]? = some (heapAt w.heap q.2) := heap_some_of_lt hlt
        show ∀ p ∈ (Docs.Close w q.2).docss, p.1 ∈ t
        rw [show Docs.Close w q.2 = Docs.close w q.2 from rfl,
            Docs.close_spec hq2 hop]
        intro p hp
        obtain ⟨hpm, hpne⟩ := List.mem_filter.mp hp
        have hpne' : p.1 ≠ i := by
          have : p.1 ≠ (heapAt w.heap q.2).id := by simpa using hpne
          rwa [hid, hqi] at this
        rcases List.mem_cons.mp (hL p hpm) with he | ht
        · exact absurd he hpne'
        · exact ht
    obtain ⟨h1, h2, h3, h4, h5, h6, h7⟩ := ih (Db.closeChild w i) hw1 hL1
    have hf := Db.closeChild_fields w i
    exact ⟨h1, h2.trans hf.1, h3.trans hf.2.1, h4.trans hf.2.2.1,
           h5.trans hf.2.2.2.1, h6.trans hf.2.2.2.2.1, h7.trans hf.2.2.2.2.2⟩

lemma closed_of_inv_empty {w : Db} (hw : DbInv w) (he : w.docss = []) (a : Nat)
    (ha : a < w.heap.length) : (heapAt w.heap a).opened = false := by
  obtain ⟨_, hopen, _⟩ := hw
  by_contra hc
  have hc' : (heapAt w.heap a).opened = true := by
    simpa using hc
  have := hopen a (List.mem_range.mpr ha) hc'
  rw [he] at this
  simp at this

lemma DbClose_spec {w : Db} (hw : DbInv w) (h : w.opened = true) :
    (Db.Close w).opened = false ∧
    (Db.Close w).freeCount = w.freeCount + 1 ∧
    (Db.Close w).docss = [] ∧
    (Db.Close w).heap.length = w.heap.length ∧
    (∀ a, a < w.heap.length → (heapAt (Db.Close w).heap a).opened = false) := by
  have hreach : ∀ p ∈ w.docss, p.1 ∈ List.range w.next := by
    intro p hp
    exact List.mem_range.mpr ((hw.1 p hp).2.2.2.2)
  obtain ⟨h1, h2, h3, h4, h5, h6, h7⟩ :=
    closeAll_spec (List.range w.next) w hw hreach
  have hw2 : DbInv ((List.range w.next).foldl Db.closeChild w) :=
    inv_foldl_closeChild (List.range w.next) w hw
  rw [Db.Close_run h]
  refine ⟨rfl, by rw [h5], h1, h7, ?_⟩
  intro a ha
  have ha2 : a < ((List.range w.next).foldl Db.closeChild w).heap.length := by
    rw [h7]; exact ha
  exact closed_of_inv_empty hw2 h1 a ha2

/-! ### Closedness of an iterator is permanent -/

lemma getElem?_set_lt (l : List Docs) (i : Nat) (x : Docs) (h : i < l.length) :
    (l.set i x)[i]? = some x := by
  simp [List.getElem?_set_self, h]

lemma closedAt_close_self {w : Db} {a : Nat} {d : Docs} (h : w.heap[a]? = some d)
    (hop : d.opened = true) : closedAt (Docs.close w a) a := by
  rw [Docs.close_spec h hop]
  refine ⟨{ d with opened := false, hasDb := false, freeCount := d.freeCount + 1 }, ?_, rfl⟩
  show (w.heap.set a ({ d with opened := false, hasDb := false, freeCount := d.freeCount + 1 }))[a]? = _
  exact getElem?_set_lt _ _ _ (lt_of_heap_some h)

lemma closedAt_db_update {w : Db} {a : Nat} (x : c_dbxml_t) (h : closedAt w a) :
    closedAt { w with db := x } a := h

lemma closedAt_append {w : Db} {a : Nat} (l : List Docs) (h : closedAt w a) :
    ∃ d, (w.heap ++ l)[a]? = some d ∧ d.opened = false := by
  obtain ⟨d, hd, hdo⟩ := h
  exact ⟨d, by rw [List.getElem?_append_left (lt_of_heap_some hd)]; exact hd, hdo⟩

lemma closedAt_set {w : Db} {a b : Nat} {e e' : Docs} (hb : w.heap[b]? = some e)
    (hoe : e.opened = true) (h : closedAt w a) :
    ∃ d, (w.heap.set b e')[a]? = some d ∧ d.opened = false := by
  obtain ⟨d, hd, hdo⟩ := h
  have hab : b ≠ a := by
    intro he
    subst he
    rw [hb] at hd
    cases hd
    rw [hoe] at hdo
    cases hdo
  exact ⟨d, by rw [List.getElem?_set_ne hab]; exact hd, hdo⟩

lemma closedAt_close {w : Db} {a : Nat} (b : Nat) (h : closedAt w a) :
    closedAt (Docs.close w b) a := by
  cases hb : w.heap[b]? with
  | none => rw [Docs.close_none hb]; exact h
  | some e =>
    by_cases hoe : e.opened
    · rw [Docs.close_spec hb hoe]
      exact closedAt_set hb hoe h
    · rw [Docs.close_closed hb (by simpa using hoe)]
      exact h

lemma closedAt_Next {w : Db} {a : Nat} (b : Nat) (h : closedAt w a) :
    closedAt (Docs.Next w b).1 a := by
  cases hb : w.heap[b]? with
  | none => rw [Docs.Next_none hb]; exact h
  | some e =>
    by_cases hoe : e.opened
    · have hset : ∃ d, (w.heap.set b
          ({ e with started := true, docs := (c_dbxml_docs_next e.docs).1 }))[a]? = some d ∧
          d.opened = false := closedAt_set hb hoe h
      by_cases hz : (c_dbxml_docs_next e.docs).2 = 0
      · rw [Docs.Next_stop hb hoe hz]
        exact closedAt_close b hset
      · rw [Docs.Next_go hb hoe hz]
        exact hset
    · rw [Docs.Next_closed hb (by simpa using hoe)]
      exact h

lemma closedAt_Name {w : Db} {a : Nat} (b : Nat) (h : closedAt w a) :
    closedAt (Docs.Name w b).1 a := by
  cases hb : w.heap[b]? with
  | none => rw [Docs.Name_none hb]; exact h
  | some e =>
    by_cases hg : (e.opened && e.started) = true
    · obtain ⟨hoe, hst⟩ := Bool.and_eq_true_iff.mp hg
      rw [Docs.Name_run hb hoe hst]
      exact closedAt_set hb hoe h
    · rw [Docs.Name_stopped hb (by simpa using hg)]
      exact h

lemma closedAt_Content {w : Db} {a : Nat} (b : Nat) (h : closedAt w a) :
    closedAt (Docs.Content w b).1 a := by
  cases hb : w.heap[b]? with
  | none => rw [Docs.Content_none hb]; exact h
  | some e =>
    by_cases hg : (e.opened && e.started) = true
    · obtain ⟨hoe, hst⟩ := Bool.and_eq_true_iff.mp hg
      rw [Docs.Content_run hb hoe hst]
      exact closedAt_set hb hoe h
    · rw [Docs.Content_stopped hb (by simpa using hg)]
      exact h

lemma closedAt_closeChild {w : Db} {a : Nat} (i : Nat) (h : closedAt w a) :
    closedAt (Db.closeChild w i) a := by
  unfold Db.closeChild
  cases hf : w.docss.find? (fun p => p.1 == i) with
  | none => exact h
  | some p => exact closedAt_close p.2 h

lemma closedAt_foldl {a : Nat} (L : List Nat) :
    ∀ (w : Db), closedAt w a → closedAt (L.foldl Db.closeChild w) a := by
  induction L with
  | nil => intro w h; exact h
  | cons i t ih => intro w h; exact ih (Db.closeChild w i) (closedAt_closeChild i h)

lemma closedAt_DbClose {w : Db} {a : Nat} (h : closedAt w a) :
    closedAt (Db.Close w) a := by
  by_cases ho : w.opened
  · rw [Db.Close_run ho]
    exact closedAt_foldl (List.range w.next) w h
  · rw [Db.Close_noop (by simpa using ho)]
    exact h

lemma closedAt_PutFile {w : Db} {a : Nat} (eng : Engine) (f : String) (r : Bool)
    (h : closedAt w a) : closedAt (Db.PutFile w eng f r).1 a := by
  by_cases ho : w.opened
  · rw [Db.PutFile_open eng f r ho]
    split
    · exact h
    · exact h
  · rw [Db.PutFile_closed eng f r (by simpa using ho)]
    exact h

lemma closedAt_PutXml {w : Db} {a : Nat} (eng : Engine) (n d : String) (r : Bool)
    (h : closedAt w a) : closedAt (Db.PutXml w eng n d r).1 a := by
  by_cases ho : w.opened
  · rw [Db.PutXml_open eng n d r ho]
    split
    · exact h
    · exact h
  · rw [Db.PutXml_closed eng n d r (by simpa using ho)]
    exact h

lemma closedAt_Merge {w : Db} {a : Nat} (eng : Engine) (f : String) (r : Bool)
    (h : closedAt w a) : closedAt (Db.Merge w eng f r).1 a := by
  by_cases ho : w.opened
  · rw [Db.Merge_open eng f r ho]
    split
    · exact h
    · exact h
  · rw [Db.Merge_closed eng f r (by simpa using ho)]
    exact h

lemma closedAt_Remove {w : Db} {a : Nat} (n : String) (h : closedAt w a) :
    closedAt (Db.Remove w n).1 a := by
  by_cases ho : w.opened
  · rw [Db.Remove_open n ho]
    split
    · exact h
    · exact h
  · rw [Db.Remove_closed n (by simpa using ho)]
    exact h

lemma closedAt_Get {w : Db} {a : Nat} (n : String) (h : closedAt w a) :
    closedAt (Db.Get w n).1 a := by
  by_cases ho : w.opened
  · rw [Db.Get_open n ho]
    split
    · exact h
    · exact h
  · rw [Db.Get_closed n (by simpa using ho)]
    exact h

lemma closedAt_Size {w : Db} {a : Nat} (h : closedAt w a) :
    closedAt (Db.Size w).1 a := by
  by_cases ho : w.opened
  · rw [Db.Size_open ho]
    exact h
  · rw [Db.Size_closed (by simpa using ho)]
    exact h

lemma closedAt_All {w : Db} {a : Nat} (h : closedAt w a) :
    closedAt (Db.All w).1 a := by
  by_cases ho : w.opened
  · rw [Db.All_open ho]
    exact closedAt_append _ h
  · rw [Db.All_closed (by simpa using ho)]
    exact closedAt_append _ h

lemma closedAt_Query {w : Db} {a : Nat} (eng : Engine) (q : String)
    (h : closedAt w a) : closedAt (Db.Query w eng q).1 a := by
  by_cases ho : w.opened
  · by_cases hq : (c_dbxml_get_query eng w.db q).1.error
    · rw [Db.Query_fail eng q ho hq]
      exact closedAt_append _ h
    · rw [Db.Query_ok eng q ho (by simpa using hq)]
      exact closedAt_append _ h
  · rw [Db.Query_closed eng q (by simpa using ho)]
    exact closedAt_append _ h

lemma closedAt_step {w w' : Db} {a : Nat} (hs : Step w w') (h : closedAt w a) :
    closedAt w' a := by
  cases hs with
  | putFile eng f r => exact closedAt_PutFile eng f r h
  | putXml eng n d r => exact closedAt_PutXml eng n d r h
  | merge eng f r => exact closedAt_Merge eng f r h
  | remove n => exact closedAt_Remove n h
  | get n => exact closedAt_Get n h
  | size => exact closedAt_Size h
  | all => exact closedAt_All h
  | query eng q => exact closedAt_Query eng q h
  | dbClose => exact closedAt_DbClose h
  | docsNext b => exact closedAt_Next b h
  | docsName b => exact closedAt_Name b h
  | docsContent b => exact closedAt_Content b h
  | docsClose b => exact closedAt_close b h

lemma Next_of_closedAt {w : Db} {a : Nat} (h : closedAt w a) :
    Docs.Next w a = (w, false) := by
  obtain ⟨d, hd, hdo⟩ := h
  exact Docs.Next_closed hd hdo

lemma next_false_closedAt {w : Db} {a : Nat} {d : Docs} (h : w.heap[a]? = some d)
    {w' : Db} (hn : Docs.Next w a = (w', false)) : closedAt w' a := by
  by_cases hop : d.opened
  · by_cases hz : (c_dbxml_docs_next d.docs).2 = 0
    · rw [Docs.Next_stop h hop hz] at hn
      injection hn with h1 h2
      rw [← h1]
      refine closedAt_close_self ?_
        (show ({ d with started := true, docs := (c_dbxml_docs_next d.docs).1 } : Docs).opened = true from hop)
      show (w.heap.set a ({ d with started := true, docs := (c_dbxml_docs_next d.docs).1 }))[a]? =
          some ({ d with started := true, docs := (c_dbxml_docs_next d.docs).1 })
      exact getElem?_set_lt _ _ _ (lt_of_heap_some h)
    · rw [Docs.Next_go h hop hz] at hn
      injection hn with h1 h2
      exact absurd h2 (by simp)
  · rw [Docs.Next_closed h (by simpa using hop)] at hn
    injection hn with h1 h2
    rw [← h1]
    exact ⟨d, h, by simpa using hop⟩

/-! ### Further support lemmas -/

lemma str_append_ne_empty (s t : String) (h : s ≠ "") : s ++ t ≠ "" := by
  intro he
  apply h
  have hd : s.data ++ t.data = [] := by
    rw [← String.data_append, he]
  have hs : s.data = [] := (List.append_eq_nil.mp hd).1
  cases s
  simp_all

lemma DbClose_idem (w : Db) : Db.Close (Db.Close w) = Db.Close w := by
  by_cases h : w.opened
  · have hc : (Db.Close w).opened = false := by rw [Db.Close_run h]
    exact Db.Close_noop hc
  · have h0 : w.opened = false := by simpa using h
    rw [Db.Close_noop h0, Db.Close_noop h0]

lemma DocsClose_idem (w : Db) (a : Nat) :
    Docs.close (Docs.close w a) a = Docs.close w a := by
  cases h : w.heap[a]? with
  | none =>
    rw [Docs.close_none h, Docs.close_none h]
  | some d =>
    by_cases hop : d.opened
    · obtain ⟨e, he, heo⟩ := closedAt_close_self h hop
      exact Docs.close_closed he heo
    · have h0 : d.opened = false := by simpa using hop
      rw [Docs.close_closed h h0, Docs.close_closed h h0]


lemma findDoc_filter_self (c : List (String × String)) (n : String) :
    findDoc (c.filter (fun p => p.1 != n)) n = none := by
  unfold findDoc
  rw [Option.map_eq_none']
  apply List.find?_eq_none.mpr
  intro x hx
  obtain ⟨_, hne⟩ := List.mem_filter.mp hx
  simpa using hne

lemma findDoc_afterBestEffortDelete (c : List (String × String)) (n : String) :
    findDoc (afterBestEffortDelete c n) n = none := by
  unfold afterBestEffortDelete containerDelete
  by_cases h : (findDoc c n).isSome
  · simp only [h, if_true]
    exact findDoc_filter_self c n
  · simp only [h, if_false]
    exact Option.not_isSome_iff_eq_none.mp h

lemma containerPut_error_ne_empty {wf : String → Bool} {c : List (String × String)}
    {n data msg : String} (h : containerPut wf c n data = .error msg) : msg ≠ "" := by
  unfold containerPut at h
  by_cases hex : (findDoc c n).isSome
  · rw [if_pos hex] at h
    injection h with h
    rw [← h]
    exact str_append_ne_empty _ _ (by decide)
  · rw [if_neg hex] at h
    by_cases hwf : wf data
    · rw [if_pos hwf] at h
      cases h
    · rw [if_neg hwf] at h
      injection h with h
      rw [← h]
      exact str_append_ne_empty _ _ (by decide)

lemma mergeLoop_flag (wf : String → Bool) (rep : Bool) (docs : List (String × String)) :
    ∀ db : c_dbxml_t, db.error = false → db.errstring = "" →
    ((mergeLoop wf db docs rep).1.error = true ↔ (mergeLoop wf db docs rep).2 = 0) ∧
    ((mergeLoop wf db docs rep).1.errstring = "" ↔ ¬(mergeLoop wf db docs rep).2 = 0) := by
  induction docs with
  | nil =>
    intro db he hs
    constructor
    · simp [mergeLoop, he]
    · simp [mergeLoop, hs]
  | cons hd tl ih =>
    intro db he hs
    obtain ⟨n, data⟩ := hd
    by_cases hrep : rep
    · cases hput : containerPut wf (afterBestEffortDelete db.container n) n data with
      | error msg =>
        have hmsg := containerPut_error_ne_empty hput
        constructor
        · simp [mergeLoop, hrep, hput]
        · simp [mergeLoop, hrep, hput, hmsg]
      | ok c =>
        have heq : mergeLoop wf db ((n, data) :: tl) rep =
            mergeLoop wf { db with container := c } tl rep := by
          simp [mergeLoop, hrep, hput]
        rw [heq]
        exact ih _ he hs
    · cases hput : containerPut wf db.container n data with
      | error msg =>
        have hmsg := containerPut_error_ne_empty hput
        constructor
        · simp [mergeLoop, hrep, hput]
        · simp [mergeLoop, hrep, hput, hmsg]
      | ok c =>
        have heq : mergeLoop wf db ((n, data) :: tl) rep =
            mergeLoop wf { db with container := c } tl rep := by
          simp [mergeLoop, hrep, hput]
        rw [heq]
        exact ih _ he hs

lemma close_preserves_addr {w : Db} {a b : Nat} (hab : b ≠ a) :
    (Docs.close w b).heap[a]? = w.heap[a]? := by
  cases hb : w.heap[b]? with
  | none => rw [Docs.close_none hb]
  | some e =>
    by_cases hoe : e.opened
    · rw [Docs.close_spec hb hoe]
      show (w.heap.set b _)[a]? = _
      rw [List.getElem?_set_ne hab]
    · rw [Docs.close_closed hb (by simpa using hoe)]

lemma close_docss_subset {w : Db} (b : Nat) {p : Nat × Nat}
    (hp : p ∈ (Docs.close w b).docss) : p ∈ w.docss := by
  cases hb : w.heap[b]? with
  | none => rw [Docs.close_none hb] at hp; exact hp
  | some e =>
    by_cases hoe : e.opened
    · rw [Docs.close_spec hb hoe] at hp
      exact (List.mem_filter.mp hp).1
    · rw [Docs.close_closed hb (by simpa using hoe)] at hp
      exact hp

lemma closeChild_preserves_addr {w : Db} {a : Nat} (i : Nat)
    (hP : ∀ p ∈ w.docss, p.2 ≠ a) :
    (Db.closeChild w i).heap[a]? = w.heap[a]? ∧
    (∀ p ∈ (Db.closeChild w i).docss, p.2 ≠ a) := by
  unfold Db.closeChild
  cases hf : w.docss.find? (fun p => p.1 == i) with
  | none => exact ⟨rfl, hP⟩
  | some q =>
    have hq : q ∈ w.docss := List.mem_of_find?_eq_some hf
    constructor
    · exact close_preserves_addr (hP q hq)
    · intro p hp
      exact hP p (close_docss_subset q.2 hp)

lemma foldl_preserves_addr {a : Nat} (L : List Nat) :
    ∀ (w : Db), (∀ p ∈ w.docss, p.2 ≠ a) →
    ((L.foldl Db.closeChild w).heap[a]? = w.heap[a]?) := by
  induction L with
  | nil => intro w hP; rfl
  | cons i t ih =>
    intro w hP
    obtain ⟨h1, h2⟩ := closeChild_preserves_addr i hP
    exact (ih (Db.closeChild w i) h2).trans h1

lemma DbClose_preserves_addr {w : Db} {a : Nat} (hw : DbInv w)
    (ha : ∀ p ∈ w.docss, p.2 ≠ a) : (Db.Close w).heap[a]? = w.heap[a]? := by
  by_cases h : w.opened
  · rw [Db.Close_run h]
    exact foldl_preserves_addr (List.range w.next) w ha
  · rw [Db.Close_noop (by simpa using h)]


/-! ### The claims -/

/-- Claim C1: for every open connection, `Close` force-closes every iterator
still registered in `docss` (each registered address holds a closed object
afterwards), empties the registry, releases the native container handle
exactly once (`freeCount` is bumped by one) and marks the connection closed;
and a second `Close` on the connection, or on any iterator, is a no-op. -/
theorem claim_C1_close_force_and_idempotent (w : Db) (hw : DbInv w)
    (h : w.opened = true) :
    (Db.Close w).opened = false ∧
    (Db.Close w).freeCount = w.freeCount + 1 ∧
    (Db.Close w).docss = [] ∧
    (∀ p ∈ w.docss, ∃ d, (Db.Close w).heap[p.2]? = some d ∧ d.opened = false) ∧
    Db.Close (Db.Close w) = Db.Close w ∧
    (∀ a, Docs.Close (Docs.Close w a) a = Docs.Close w a) := by
  obtain ⟨h1, h2, h3, h4, h5⟩ := DbClose_spec hw h
  refine ⟨h1, h2, h3, ?_, DbClose_idem w, fun a => DocsClose_idem w a⟩
  intro p hp
  have hlt := (hw.1 p hp).1
  have hlt2 : p.2 < (Db.Close w).heap.length := by rw [h4]; exact hlt
  exact ⟨heapAt (Db.Close w).heap p.2, heap_some_of_lt hlt2, h5 p.2 hlt⟩

theorem claim_C1_witness :
    (Db.Close wAll).opened = false ∧ (Db.Close wAll).docss = [] ∧
    Db.Close (Db.Close wAll) = Db.Close wAll :=
  ⟨(claim_C1_close_force_and_idempotent wAll (by decide) (by decide)).1,
   (claim_C1_close_force_and_idempotent wAll (by decide) (by decide)).2.2.1,
   (claim_C1_close_force_and_idempotent wAll (by decide) (by decide)).2.2.2.2.1⟩

/-- Claim C2: every operation other than `Close` on a closed connection
returns the distinguished `errclosed` error immediately.  No native-layer
function is invoked: in each returned state the native handle `db` is the
untouched `w.db` (for `All`/`Query` the state changes only by allocating the
zero-valued, never-opened iterator object that Go's `docs := &Docs..` line
creates before the opened-check). -/
theorem claim_C2_closed_ops_error (w : Db) (h : w.opened = false) (eng : Engine)
    (f n d q : String) (r : Bool) :
    Db.PutFile w eng f r = (w, some errclosed) ∧
    Db.PutXml w eng n d r = (w, some errclosed) ∧
    Db.Merge w eng f r = (w, some errclosed) ∧
    Db.Remove w n = (w, some errclosed) ∧
    Db.Get w n = (w, "", some errclosed) ∧
    Db.Size w = (w, 0, some errclosed) ∧
    Db.All w = ({ w with heap := w.heap ++ [newDocs] }, w.heap.length, some errclosed) ∧
    Db.Query w eng q = ({ w with heap := w.heap ++ [newDocs] }, w.heap.length, some errclosed) :=
  ⟨Db.PutFile_closed eng f r h, Db.PutXml_closed eng n d r h, Db.Merge_closed eng f r h,
   Db.Remove_closed n h, Db.Get_closed n h, Db.Size_closed h, Db.All_closed h,
   Db.Query_closed eng q h⟩

theorem claim_C2_witness :
    Db.Get wClosed "a" = (wClosed, "", some errclosed) ∧
    Db.Size wClosed = (wClosed, 0, some errclosed) :=
  ⟨(claim_C2_closed_ops_error wClosed (by decide) engOk "f" "a" "d" "q" true).2.2.2.2.1,
   (claim_C2_closed_ops_error wClosed (by decide) engOk "f" "a" "d" "q" true).2.2.2.2.2.1⟩

/-- Claim C3: in every reachable state, the registry `docss` contains exactly
the iterators created by this connection's `All`/`Query` that are not yet
closed: every entry points at an opened iterator registered under its own
fresh id (below the `next` counter), every opened iterator is registered, and
ids are unique.  `Reachable` closes `Open` under all operations of the public
interface, so this also shows no other operation changes the registry. -/
theorem claim_C3_children_exactly_open (eng : Engine) (w : Db)
    (h : Reachable eng w) : DbInv w := by
  induction h with
  | refl => exact inv_Open eng
  | @tail b c hpre hs ih => exact inv_step hs ih

theorem claim_C3_witness : DbInv wAll :=
  claim_C3_children_exactly_open engOk wAll
    (Relation.ReflTransGen.single (Step.all (Open engOk).1))

/-- Claim C4: `Next` on a closed iterator returns false and changes nothing;
on an open iterator it sets `started`, advances the native cursor, and on
failed advancement closes the iterator (the object is marked closed, its
cursor freed once, and every entry with its id is deregistered) and returns
false, while on successful advancement it returns true; and once `Next` has
returned false the iterator is closed, closedness survives every further
operation, and `Next` on a closed iterator always returns false — so `Next`
returns false forever after. -/
theorem claim_C4_next_protocol (w : Db) (a : Nat) (d : Docs)
    (h : w.heap[a]? = some d) :
    (d.opened = false → Docs.Next w a = (w, false)) ∧
    (d.opened = true → (c_dbxml_docs_next d.docs).2 = 0 →
      (Docs.Next w a).2 = false ∧
      (Docs.Next w a).1.heap[a]? =
        some { d with started := true, docs := (c_dbxml_docs_next d.docs).1
                      opened := false, hasDb := false, freeCount := d.freeCount + 1 } ∧
      (∀ p ∈ (Docs.Next w a).1.docss, p.1 ≠ d.id)) ∧
    (d.opened = true → ¬(c_dbxml_docs_next d.docs).2 = 0 →
      (Docs.Next w a).2 = true ∧
      (Docs.Next w a).1.heap[a]? =
        some { d with started := true, docs := (c_dbxml_docs_next d.docs).1 }) ∧
    (∀ w', Docs.Next w a = (w', false) → closedAt w' a) ∧
    (∀ u u', Step u u' → closedAt u a → closedAt u' a) ∧
    (∀ u, closedAt u a → Docs.Next u a = (u, false)) := by
  refine ⟨?_, ?_, ?_, ?_, ?_, ?_⟩
  · intro hop
    exact Docs.Next_closed h hop
  · intro hop hz
    rw [Docs.Next_stop h hop hz]
    have hW : (w.heap.set a ({ d with started := true, docs := (c_dbxml_docs_next d.docs).1 }))[a]? =
        some ({ d with started := true, docs := (c_dbxml_docs_next d.docs).1 }) :=
      getElem?_set_lt _ _ _ (lt_of_heap_some h)
    rw [Docs.close_spec hW
      (show ({ d with started := true, docs := (c_dbxml_docs_next d.docs).1 } : Docs).opened = true from hop)]
    refine ⟨rfl, ?_, ?_⟩
    · exact getElem?_set_lt _ _ _ (by rw [List.length_set]; exact lt_of_heap_some h)
    · intro p hp
      have := (List.mem_filter.mp hp).2
      simpa using this
  · intro hop hz
    rw [Docs.Next_go h hop hz]
    exact ⟨rfl, getElem?_set_lt _ _ _ (lt_of_heap_some h)⟩
  · intro w' hn
    exact next_false_closedAt h hn
  · intro u u' hs hc
    exact closedAt_step hs hc
  · intro u hc
    exact Next_of_closedAt hc

theorem claim_C4_witness :
    (Docs.Next wDocs 0).2 = true ∧ (Docs.Next wAll 0).2 = false :=
  ⟨((claim_C4_next_protocol wDocs 0 dDocs (by decide)).2.2.1 (by decide) (by decide)).1,
   ((claim_C4_next_protocol wAll 0 dAll (by decide)).2.1 (by decide) (by decide)).1⟩

/-- Claim C5: `Name` and `Content` return the empty string (and leave the
state unchanged) whenever the iterator is closed or `Next` has never been
called on it; and after `Close` on an open connection, every iterator that
was registered has `Next` returning false and `Name`/`Content` returning
empty strings. -/
theorem claim_C5_name_content_empty (w : Db) (hw : DbInv w) :
    (∀ a d, w.heap[a]? = some d → d.opened = false ∨ d.started = false →
      Docs.Name w a = (w, "") ∧ Docs.Content w a = (w, "")) ∧
    (w.opened = true → ∀ p ∈ w.docss,
      Docs.Next (Db.Close w) p.2 = (Db.Close w, false) ∧
      (Docs.Name (Db.Close w) p.2).2 = "" ∧
      (Docs.Content (Db.Close w) p.2).2 = "") := by
  constructor
  · intro a d hd hcase
    have hg : (d.opened && d.started) = false := by
      rcases hcase with hc | hc <;> simp [hc]
    exact ⟨Docs.Name_stopped hd hg, Docs.Content_stopped hd hg⟩
  · intro ho p hp
    obtain ⟨h1, h2, h3, h4, h5⟩ := DbClose_spec hw ho
    have hlt := (hw.1 p hp).1
    have hlt2 : p.2 < (Db.Close w).heap.length := by rw [h4]; exact hlt
    have hsome : (Db.Close w).heap[p.2]? = some (heapAt (Db.Close w).heap p.2) :=
      heap_some_of_lt hlt2
    have hcl : (heapAt (Db.Close w).heap p.2).opened = false := h5 p.2 hlt
    have hg : ((heapAt (Db.Close w).heap p.2).opened &&
        (heapAt (Db.Close w).heap p.2).started) = false := by
      rw [hcl]
      rfl
    exact ⟨Docs.Next_closed hsome hcl,
           by rw [Docs.Name_stopped hsome hg],
           by rw [Docs.Content_stopped hsome hg]⟩

theorem claim_C5_witness :
    Docs.Name wAll 0 = (wAll, "") ∧ (Docs.Name (Db.Close wAll) 0).2 = "" :=
  ⟨((claim_C5_name_content_empty wAll (by decide)).1 0 dAll (by decide)
      (Or.inr (by decide))).1,
   ((claim_C5_name_content_empty wAll (by decide)).2 (by decide) (0, 0) (by decide)).2.1⟩

/-- Claim C6: on an open connection, a `Query` whose construction fails
returns a non-nil error together with an iterator that is immediately
exhausted: the iterator is closed from birth, `Next` on it returns false and
leaves the state unchanged, and on any state in which it is closed `Next`
keeps returning false. -/
theorem claim_C6_query_fail_exhausted (w : Db) (eng : Engine) (q : String)
    (h : w.opened = true) (hq : eng.queryOk q = false) :
    (Db.Query w eng q).2.2 = some ("Malformed query: " ++ q) ∧
    closedAt (Db.Query w eng q).1 (Db.Query w eng q).2.1 ∧
    Docs.Next (Db.Query w eng q).1 (Db.Query w eng q).2.1 =
      ((Db.Query w eng q).1, false) ∧
    (∀ u, closedAt u (Db.Query w eng q).2.1 →
      Docs.Next u (Db.Query w eng q).2.1 = (u, false)) := by
  have herr : (c_dbxml_get_query eng w.db q).1.error = true := by
    simp [c_dbxml_get_query, hq]
  have hstr : (c_dbxml_get_query eng w.db q).1.errstring = "Malformed query: " ++ q := by
    simp [c_dbxml_get_query, hq]
  rw [Db.Query_fail eng q h herr]
  have hsome : (w.heap ++ [{ newDocs with docs := (c_dbxml_get_query eng w.db q).2 }])[w.heap.length]? =
      some ({ newDocs with docs := (c_dbxml_get_query eng w.db q).2 }) :=
    List.getElem?_concat_length _ _
  refine ⟨by rw [hstr], ?_, ?_, ?_⟩
  · exact ⟨{ newDocs with docs := (c_dbxml_get_query eng w.db q).2 }, hsome, rfl⟩
  · exact Docs.Next_closed hsome rfl
  · intro u hc
    exact Next_of_closedAt hc

theorem claim_C6_witness :
    (Db.Query wOpen engQBad "//x").2.2 = some ("Malformed query: " ++ "//x") ∧
    Docs.Next (Db.Query wOpen engQBad "//x").1 (Db.Query wOpen engQBad "//x").2.1 =
      ((Db.Query wOpen engQBad "//x").1, false) :=
  ⟨(claim_C6_query_fail_exhausted wOpen engQBad "//x" (by decide) (by decide)).1,
   (claim_C6_query_fail_exhausted wOpen engQBad "//x" (by decide) (by decide)).2.2.1⟩

/-- Claim C8: `c_dbxml_open` first attempts the read-write open; if (and only
if) that attempt ends in error it retries exactly once with the read-only
config; when both attempts fail, Go's `Open` frees the native handle
(`freeCount = 1`), returns a non-open connection, and surfaces the second
attempt's error; on success it returns an open connection with an empty
registry and a registered finalizer. -/
theorem claim_C8_open_fallback (eng : Engine) :
    ((cOpenAttempt eng false).error = false → c_dbxml_open eng = cOpenAttempt eng false) ∧
    ((cOpenAttempt eng false).error = true → c_dbxml_open eng = cOpenAttempt eng true) ∧
    ((cOpenAttempt eng false).error = true → (cOpenAttempt eng true).error = true →
      (Open eng).1.opened = false ∧ (Open eng).1.freeCount = 1 ∧
      (Open eng).2 = some (cOpenAttempt eng true).errstring) ∧
    ((c_dbxml_open eng).error = false →
      (Open eng).1.opened = true ∧ (Open eng).1.docss = [] ∧
      (Open eng).1.finalizer = true ∧ (Open eng).1.freeCount = 0 ∧
      (Open eng).2 = none) := by
  refine ⟨?_, ?_, ?_, ?_⟩
  · intro h0
    simp [c_dbxml_open, h0]
  · intro h1
    simp [c_dbxml_open, h1]
  · intro h1 h2
    have hco : c_dbxml_open eng = cOpenAttempt eng true := by
      simp [c_dbxml_open, h1]
    have hce : (c_dbxml_open eng).error = true := by rw [hco]; exact h2
    refine ⟨?_, ?_, ?_⟩ <;> simp [Open, hce, hco, h2]
  · intro h0
    refine ⟨?_, ?_, ?_, ?_, ?_⟩ <;> simp [Open, h0]

theorem claim_C8_witness :
    (Open engFailOpen).1.opened = false ∧ (Open engFailOpen).1.freeCount = 1 ∧
    (Open engFailOpen).2 = some "no read access" :=
  have hth := (claim_C8_open_fallback engFailOpen).2.2.1 (by decide) (by decide)
  ⟨hth.1, hth.2.1, by rw [hth.2.2]; rfl⟩

/-- Claim C10: when `Query` construction fails, the returned iterator object
is not registered (the registry and the id counter are unchanged), not marked
open, has no finalizer installed and its cursor was never freed; calling
`Close` on it is a no-op, and the connection's `Close` leaves the object
untouched (the cursor-free path is never taken for it). -/
theorem claim_C10_query_fail_detached (w : Db) (eng : Engine) (q : String)
    (hw : DbInv w) (h : w.opened = true)
    (hq : (c_dbxml_get_query eng w.db q).1.error = true) :
    (Db.Query w eng q).1.docss = w.docss ∧
    (Db.Query w eng q).1.next = w.next ∧
    (∃ d, (Db.Query w eng q).1.heap[(Db.Query w eng q).2.1]? = some d ∧
      d.opened = false ∧ d.finalizer = false ∧ d.freeCount = 0) ∧
    Docs.Close (Db.Query w eng q).1 (Db.Query w eng q).2.1 = (Db.Query w eng q).1 ∧
    (Db.Close (Db.Query w eng q).1).heap[(Db.Query w eng q).2.1]? =
      (Db.Query w eng q).1.heap[(Db.Query w eng q).2.1]? := by
  rw [Db.Query_fail eng q h hq]
  have hsome : (w.heap ++ [{ newDocs with docs := (c_dbxml_get_query eng w.db q).2 }])[w.heap.length]? =
      some ({ newDocs with docs := (c_dbxml_get_query eng w.db q).2 }) :=
    List.getElem?_concat_length _ _
  refine ⟨rfl, rfl, ?_, ?_, ?_⟩
  · exact ⟨{ newDocs with docs := (c_dbxml_get_query eng w.db q).2 }, hsome, rfl, rfl, rfl⟩
  · exact Docs.close_closed hsome rfl
  · apply DbClose_preserves_addr
    · exact inv_heap_append_closed rfl hw
    · intro p hp
      exact Nat.ne_of_lt (hw.1 p hp).1

theorem claim_C10_witness :
    (Db.Query wOpen engQBad "//x").1.docss = wOpen.docss ∧
    Docs.Close (Db.Query wOpen engQBad "//x").1 (Db.Query wOpen engQBad "//x").2.1 =
      (Db.Query wOpen engQBad "//x").1 :=
  ⟨(claim_C10_query_fail_detached wOpen engQBad "//x" (by decide) (by decide) (by decide)).1,
   (claim_C10_query_fail_detached wOpen engQBad "//x" (by decide) (by decide) (by decide)).2.2.2.1⟩

/-! ### Error-flag discipline of the native layer (claim C7) -/

lemma put_file_flag (eng : Engine) (db : c_dbxml_t) (f : String) (r : Bool) :
    ((c_dbxml_put_file eng db f r).1.error = true ↔ (c_dbxml_put_file eng db f r).2 = 0) ∧
    ((c_dbxml_put_file eng db f r).1.errstring = "" ↔ ¬(c_dbxml_put_file eng db f r).2 = 0) := by
  have hmsg : ("Cannot open file: " ++ f) ≠ "" :=
    str_append_ne_empty _ _ (by decide)
  by_cases hr : r
  · cases hf : eng.files f with
    | none =>
      constructor <;> simp [c_dbxml_put_file, hr, hf, hmsg]
    | some data =>
      cases hput : containerPut eng.wellFormed (afterBestEffortDelete db.container f) f data with
      | error msg =>
        have hne := containerPut_error_ne_empty hput
        constructor <;> simp [c_dbxml_put_file, hr, hf, hput, hne]
      | ok c =>
        constructor <;> simp [c_dbxml_put_file, hr, hf, hput]
  · cases hf : eng.files f with
    | none =>
      constructor <;> simp [c_dbxml_put_file, hr, hf, hmsg]
    | some data =>
      cases hput : containerPut eng.wellFormed db.container f data with
      | error msg =>
        have hne := containerPut_error_ne_empty hput
        constructor <;> simp [c_dbxml_put_file, hr, hf, hput, hne]
      | ok c =>
        constructor <;> simp [c_dbxml_put_file, hr, hf, hput]

lemma put_xml_flag (eng : Engine) (db : c_dbxml_t) (n d : String) (r : Bool) :
    ((c_dbxml_put_xml eng db n d r).1.error = true ↔ (c_dbxml_put_xml eng db n d r).2 = 0) ∧
    ((c_dbxml_put_xml eng db n d r).1.errstring = "" ↔ ¬(c_dbxml_put_xml eng db n d r).2 = 0) := by
  by_cases hr : r
  · cases hput : containerPut eng.wellFormed (afterBestEffortDelete db.container n) n d with
    | error msg =>
      have hne := containerPut_error_ne_empty hput
      constructor <;> simp [c_dbxml_put_xml, hr, hput, hne]
    | ok c =>
      constructor <;> simp [c_dbxml_put_xml, hr, hput]
  · cases hput : containerPut eng.wellFormed db.container n d with
    | error msg =>
      have hne := containerPut_error_ne_empty hput
      constructor <;> simp [c_dbxml_put_xml, hr, hput, hne]
    | ok c =>
      constructor <;> simp [c_dbxml_put_xml, hr, hput]

lemma merge_flag (eng : Engine) (db : c_dbxml_t) (f : String) (r : Bool) :
    ((c_dbxml_merge eng db f r).1.error = true ↔ (c_dbxml_merge eng db f r).2 = 0) ∧
    ((c_dbxml_merge eng db f r).1.errstring = "" ↔ ¬(c_dbxml_merge eng db f r).2 = 0) :=
  mergeLoop_flag eng.wellFormed r (eng.mergeSource f)
    { db with errstring := "", error := false } rfl rfl

lemma remove_flag (db : c_dbxml_t) (n : String) :
    ((c_dbxml_remove db n).1.error = true ↔ (c_dbxml_remove db n).2 = 0) ∧
    ((c_dbxml_remove db n).1.errstring = "" ↔ ¬(c_dbxml_remove db n).2 = 0) := by
  have hmsg : ("Document not found: " ++ n) ≠ "" :=
    str_append_ne_empty _ _ (by decide)
  by_cases hfd : (findDoc db.container n).isSome
  · constructor <;> simp [c_dbxml_remove, containerDelete, hfd]
  · constructor <;> simp [c_dbxml_remove, containerDelete, hfd, hmsg]

lemma get_flag (db : c_dbxml_t) (n : String) :
    ((c_dbxml_get db n).1.error = true ↔ findDoc db.container n = none) ∧
    ((c_dbxml_get db n).1.errstring = "" ↔ (findDoc db.container n).isSome = true) := by
  have hmsg : ("Document not found: " ++ n) ≠ "" :=
    str_append_ne_empty _ _ (by decide)
  cases hfd : findDoc db.container n with
  | none => constructor <;> simp [c_dbxml_get, hfd, hmsg]
  | some content => constructor <;> simp [c_dbxml_get, hfd]

lemma query_flag (eng : Engine) (db : c_dbxml_t) (q : String) :
    ((c_dbxml_get_query eng db q).1.error = true ↔ eng.queryOk q = false) ∧
    ((c_dbxml_get_query eng db q).1.errstring = "" ↔ eng.queryOk q = true) := by
  have hmsg : ("Malformed query: " ++ q) ≠ "" :=
    str_append_ne_empty _ _ (by decide)
  by_cases hq : eng.queryOk q
  · constructor <;> simp [c_dbxml_get_query, hq]
  · constructor <;> simp [c_dbxml_get_query, hq, hmsg]

/-- Claim C7 counterexample: `c_dbxml_size` takes the connection handle but
does not clear the sticky error state at the start of the operation, and so
leaves the flag set even though the operation itself does not fail: on a
handle whose flag is still set from a previous failure the count is returned,
yet the flag and the stale message remain — refuting "cleared at the start of
the operation, and left set iff that operation fails" for this operation. -/
theorem claim_C7_counterexample :
    (c_dbxml_size cdbStale).2 = 1 ∧
    ¬((c_dbxml_size cdbStale).1.error = false ∧
      (c_dbxml_size cdbStale).1.errstring = "") := by
  decide

/-- Claim C7 amended: every Native Resource Layer operation on the connection
handle except `c_dbxml_size` (and the pure accessors `c_dbxml_error` /
`c_dbxml_errstring`) clears the sticky error state at the start and leaves
the flag set — with a non-empty message — exactly when that operation fails.
This holds for an arbitrary incoming handle state, which is what "overwritten
at the start of every operation" amounts to. -/
theorem claim_C7_amended_error_discipline (eng : Engine) (db : c_dbxml_t)
    (f n d q : String) (r : Bool) :
    (((c_dbxml_put_file eng db f r).1.error = true ↔ (c_dbxml_put_file eng db f r).2 = 0) ∧
     ((c_dbxml_put_file eng db f r).1.errstring = "" ↔ ¬(c_dbxml_put_file eng db f r).2 = 0)) ∧
    (((c_dbxml_put_xml eng db n d r).1.error = true ↔ (c_dbxml_put_xml eng db n d r).2 = 0) ∧
     ((c_dbxml_put_xml eng db n d r).1.errstring = "" ↔ ¬(c_dbxml_put_xml eng db n d r).2 = 0)) ∧
    (((c_dbxml_merge eng db f r).1.error = true ↔ (c_dbxml_merge eng db f r).2 = 0) ∧
     ((c_dbxml_merge eng db f r).1.errstring = "" ↔ ¬(c_dbxml_merge eng db f r).2 = 0)) ∧
    (((c_dbxml_remove db n).1.error = true ↔ (c_dbxml_remove db n).2 = 0) ∧
     ((c_dbxml_remove db n).1.errstring = "" ↔ ¬(c_dbxml_remove db n).2 = 0)) ∧
    (((c_dbxml_get db n).1.error = true ↔ findDoc db.container n = none) ∧
     ((c_dbxml_get db n).1.errstring = "" ↔ (findDoc db.container n).isSome = true)) ∧
    ((c_dbxml_get_all db).1.error = false ∧ (c_dbxml_get_all db).1.errstring = "") ∧
    (((c_dbxml_get_query eng db q).1.error = true ↔ eng.queryOk q = false) ∧
     ((c_dbxml_get_query eng db q).1.errstring = "" ↔ eng.queryOk q = true)) :=
  ⟨put_file_flag eng db f r, put_xml_flag eng db n d r, merge_flag eng db f r,
   remove_flag db n, get_flag db n, ⟨rfl, rfl⟩, query_flag eng db q⟩

/-- Claim C9: in a replace-put the insert operates on the container left by
the best-effort delete (so the target name is always free), and only the
insertion's failure is reported: `put_xml` with `replace = true` fails iff
the engine rejects the new content (and then the reported message is the
insert's, not the delete's), and in particular when the delete itself failed
(no document of that name existed) the put still succeeds; likewise
`put_file` fails only through the insertion (unreadable file or rejected
content). -/
theorem claim_C9_replace_swallows_delete (eng : Engine) (db : c_dbxml_t)
    (n d f : String) :
    ((c_dbxml_put_xml eng db n d true).2 = 0 ↔ eng.wellFormed d = false) ∧
    ((c_dbxml_put_xml eng db n d true).2 = 0 →
      (c_dbxml_put_xml eng db n d true).1.errstring = "Malformed document: " ++ n) ∧
    (findDoc db.container n = none → eng.wellFormed d = true →
      (c_dbxml_put_xml eng db n d true).2 = 1 ∧
      (c_dbxml_put_xml eng db n d true).1.error = false) ∧
    (eng.files f = none → (c_dbxml_put_file eng db f true).2 = 0) ∧
    (∀ data, eng.files f = some data →
      ((c_dbxml_put_file eng db f true).2 = 0 ↔ eng.wellFormed data = false)) ∧
    (findDoc db.container f = none → ∀ data, eng.files f = some data →
      eng.wellFormed data = true →
      (c_dbxml_put_file eng db f true).2 = 1 ∧
      (c_dbxml_put_file eng db f true).1.error = false) := by
  have hnone := findDoc_afterBestEffortDelete db.container n
  have hnonef := findDoc_afterBestEffortDelete db.container f
  refine ⟨?_, ?_, ?_, ?_, ?_, ?_⟩
  · by_cases hwf : eng.wellFormed d
    · simp [c_dbxml_put_xml, containerPut, hnone, hwf]
    · simp [c_dbxml_put_xml, containerPut, hnone, hwf]
  · intro hz
    by_cases hwf : eng.wellFormed d
    · exfalso
      revert hz
      simp [c_dbxml_put_xml, containerPut, hnone, hwf]
    · simp [c_dbxml_put_xml, containerPut, hnone, hwf]
  · intro hfd hwf
    constructor <;> simp [c_dbxml_put_xml, containerPut, hnone, hwf]
  · intro hf
    simp [c_dbxml_put_file, hf]
  · intro data hf
    by_cases hwf : eng.wellFormed data
    · simp [c_dbxml_put_file, containerPut, hnonef, hf, hwf]
    · simp [c_dbxml_put_file, containerPut, hnonef, hf, hwf]
  · intro hfd data hf hwf
    constructor <;> simp [c_dbxml_put_file, containerPut, hnonef, hf, hwf]

theorem claim_C9_witness :
    (c_dbxml_put_xml engOk cdbEmpty "a" "<a/>" true).2 = 1 ∧
    (c_dbxml_put_xml engOk cdbEmpty "a" "<a/>" true).1.error = false :=
  (claim_C9_replace_swallows_delete engOk cdbEmpty "a" "<a/>" "f").2.2.1
    (by decide) (by decide)
